import Mathlib

/-! Verification development for the `recognition/OASIS-Brain-StableDiffusion`
directory of jonooallen/PatternFlow (files `blocks.py` and `utils.py`).

Two layers of shallow embedding are used.

1. Shape-level semantics of the PyTorch modules in `blocks.py`: a 4-D tensor
   is abstracted to its shape `(batch, channels, height, width)` and each
   layer either returns the output shape or the runtime error the tensor
   library would raise (channel mismatch, output size too small, broadcast
   failure, concatenation size mismatch, ...).  Kernel sizes, paddings,
   pooling and upsampling factors are the ones hard-coded in `blocks.py`.

2. Value-level semantics, with exact real arithmetic standing in for IEEE
   floats, of the schedule utilities in `utils.py` (`get_noise_cadence`,
   `add_noise`, `get_sample_pos`), of `UNet.positional_embedding`, and of
   the single-channel `ConvReluBlock.forward` data path.  Randomness
   (`torch.randn_like`, `torch.randint`) is modelled by passing the entropy
   source explicitly as a function argument. -/

/-- Runtime errors raised by the tensor library at call time.  Each
constructor stands for one distinct PyTorch error message. -/
inductive TErr where
  | convChannelMismatch
  | convOutputTooSmall
  | groupNormChannelMismatch
  | broadcastMismatch
  | catSizeMismatch
  | poolOutputTooSmall
  | upsampleEmpty
  | linearSizeMismatch
  | cropTooSmall
  | indexOutOfBounds
  | attributeNotFound
  | zeroDivisionError
  deriving DecidableEq, Repr

/-- Shape of a 4-D tensor `(batch, channels, height, width)`. -/
structure S4 where
  n : ℕ
  c : ℕ
  h : ℕ
  w : ℕ
  deriving DecidableEq, Repr

/-- Shape of a 2-D tensor `(batch, features)`. -/
structure S2 where
  n : ℕ
  d : ℕ
  deriving DecidableEq, Repr

/-- `true` iff the layer returned normally (did not raise). -/
def isOkE {α : Type} (r : Except TErr α) : Bool :=
  match r with
  | .ok _ => true
  | .error _ => false

/-- Shape semantics of `nn.Conv2d(cin, cout, kernel_size=k, padding=p)`.
The spatial output size is `s + 2p - k + 1`; PyTorch raises when it would
be smaller than 1, or when the input channel count differs from `cin`. -/
def conv2dS (cin cout k p : ℕ) (s : S4) : Except TErr S4 :=
  if s.c = cin then
    if k ≤ s.h + 2 * p ∧ k ≤ s.w + 2 * p then
      Except.ok ⟨s.n, cout, s.h + 2 * p - k + 1, s.w + 2 * p - k + 1⟩
    else Except.error TErr.convOutputTooSmall
  else Except.error TErr.convChannelMismatch

/-- Shape semantics of `nn.GroupNorm(1, ch)`: shape preserving, channel
count must equal `ch` (one group always divides the channel count). -/
def groupNormS (ch : ℕ) (s : S4) : Except TErr S4 :=
  if s.c = ch then Except.ok s else Except.error TErr.groupNormChannelMismatch

/-- `nn.ReLU` is elementwise, hence shape preserving. -/
def reluS (s : S4) : S4 := s

/-- Broadcasting of one dimension: sizes must agree or one of them be 1. -/
def bdimS (p q : ℕ) : Except TErr ℕ :=
  if p = q then Except.ok p
  else if p = 1 then Except.ok q
  else if q = 1 then Except.ok p
  else Except.error TErr.broadcastMismatch

/-- Shape semantics of the elementwise `+` of two 4-D tensors with
PyTorch broadcasting. -/
def addS (a b : S4) : Except TErr S4 := do
  let n ← bdimS a.n b.n
  let c ← bdimS a.c b.c
  let h ← bdimS a.h b.h
  let w ← bdimS a.w b.w
  Except.ok ⟨n, c, h, w⟩

/-- Shape semantics of `ConvReluBlock.forward` (blocks.py lines 29-55):
`conv1` is `Conv2d(dim_in, dim_out, kernel_size=3, padding=1)`, `conv2` is
`Conv2d(dim_out, dim_out, kernel_size=3)` (no padding), both followed by
the shared `GroupNorm(1, dim_out)`; when `residual_connection` is set the
input is added (with broadcasting) to the output of the second
normalization inside `F.relu`. -/
def ConvReluBlockS (dim_in dim_out : ℕ) (residual_connection : Bool) (x : S4) :
    Except TErr S4 := do
  let x1 ← conv2dS dim_in dim_out 3 1 x
  let x2 ← groupNormS dim_out x1
  let x3 := reluS x2
  let x4 ← conv2dS dim_out dim_out 3 0 x3
  let x5 ← groupNormS dim_out x4
  if residual_connection then addS x x5 else Except.ok x5

/-- Shape semantics of `nn.MaxPool2d(2)`: spatial sizes are halved
(floor division); PyTorch raises when the input is smaller than the
kernel. -/
def maxPool2S (x : S4) : Except TErr S4 :=
  if 2 ≤ x.h ∧ 2 ≤ x.w then Except.ok ⟨x.n, x.c, x.h / 2, x.w / 2⟩
  else Except.error TErr.poolOutputTooSmall

/-- Shape semantics of `nn.Linear(inF, outF)` on a 2-D input. -/
def linearS (inF outF : ℕ) (p : S2) : Except TErr S2 :=
  if p.d = inF then Except.ok ⟨p.n, outF⟩
  else Except.error TErr.linearSizeMismatch

/-- Shape semantics of `self.embedded_block(position)[:, :, None, None]
.repeat(1, 1, h, w)`: `Sequential(ReLU(), Linear(emb_dim, dim_out))`
followed by unsqueezing to `(n, dim_out, 1, 1)` and repeating spatially. -/
def embBlockS (emb_dim dim_out : ℕ) (p : S2) (hw : ℕ × ℕ) : Except TErr S4 := do
  let l ← linearS emb_dim dim_out p
  Except.ok ⟨l.n, l.d, hw.1, hw.2⟩

/-- Shape semantics of `EncoderBlock.forward` (blocks.py lines 78-95):
max-pool, residual `ConvReluBlock(dim_in, dim_in)`, plain
`ConvReluBlock(dim_in, dim_out)`, then the projected position embedding is
broadcast-added. -/
def EncoderBlockS (dim_in dim_out emb_dim : ℕ) (x : S4) (position : S2) :
    Except TErr S4 := do
  let p ← maxPool2S x
  let y ← ConvReluBlockS dim_in dim_in true p
  let z ← ConvReluBlockS dim_in dim_out false y
  let e ← embBlockS emb_dim dim_out position (z.h, z.w)
  addS e z

/-- Shape semantics of `nn.Upsample(scale_factor=2, mode="bilinear",
align_corners=True)`: spatial sizes are doubled; empty inputs raise. -/
def upsample2S (x : S4) : Except TErr S4 :=
  if 1 ≤ x.h ∧ 1 ≤ x.w then Except.ok ⟨x.n, x.c, 2 * x.h, 2 * x.w⟩
  else Except.error TErr.upsampleEmpty

/-- Shape semantics of `torch.cat([a, b], dim=1)`: all dimensions except
the channel dimension must agree exactly (no broadcasting, no cropping). -/
def catS (a b : S4) : Except TErr S4 :=
  if a.n = b.n ∧ a.h = b.h ∧ a.w = b.w then
    Except.ok ⟨a.n, a.c + b.c, a.h, a.w⟩
  else Except.error TErr.catSizeMismatch

/-- Shape semantics of `DecoderBlock.forward` (blocks.py lines 116-135):
upsample, `torch.cat([skip_tensor, x], dim=1)` directly on the raw skip
tensor, residual `ConvReluBlock(dim_in, dim_in)`, plain
`ConvReluBlock(dim_in, dim_out)`, then the projected position embedding is
broadcast-added.  Note: the source performs no crop of any kind. -/
def DecoderBlockS (dim_in dim_out emb_dim : ℕ) (x skip_tensor : S4)
    (position : S2) : Except TErr S4 := do
  let u ← upsample2S x
  let c ← catS skip_tensor u
  let y ← ConvReluBlockS dim_in dim_in true c
  let z ← ConvReluBlockS dim_in dim_out false y
  let e ← embBlockS emb_dim dim_out position (z.h, z.w)
  addS e z

/-- Shape semantics of a center crop of `s` to target spatial size
`(target.1, target.2)`; defined only when the skip is at least as large as
the target (the spec states this as a precondition). -/
def centerCropS (target : ℕ × ℕ) (s : S4) : Except TErr S4 :=
  if target.1 ≤ s.h ∧ target.2 ≤ s.w then
    Except.ok ⟨s.n, s.c, target.1, target.2⟩
  else Except.error TErr.cropTooSmall

/-- Modelled from the spec (spec sections 4.4 and 4.3 edge case), for
comparison with `DecoderBlockS` only: "sequentially upsamples, crops the
corresponding skip feature to the upsampled spatial size (center-crop),
concatenates upsampled+skip on the channel axis, applies a ConvReluBlock
to fuse".  The tail after the concatenation is the one of the source. -/
def DecoderBlockSpecS (dim_in dim_out emb_dim : ℕ) (x skip_tensor : S4)
    (position : S2) : Except TErr S4 := do
  let u ← upsample2S x
  let sk ← centerCropS (u.h, u.w) skip_tensor
  let c ← catS u sk
  let y ← ConvReluBlockS dim_in dim_in true c
  let z ← ConvReluBlockS dim_in dim_out false y
  let e ← embBlockS emb_dim dim_out position (z.h, z.w)
  addS e z

/-- Python attribute names read or written on `UNet` instances: the ones
assigned in `UNet.__init__` and the methods of the class, together with the
four names that `UNet.forward` reads but that are never defined anywhere in
the repository. -/
inductive PyAttr where
  | pos_dim
  | in_layer
  | decoder1
  | attention1
  | decoder2
  | attention2
  | decoder3
  | attention3
  | b1
  | b2
  | b3
  | encoder1
  | attention4
  | encoder2
  | attention5
  | encoder3
  | attention6
  | out_layer
  | positional_embedding
  | forward
  | position_block
  | unet_encoder
  | unet_decoder
  | unet_head
  deriving DecidableEq, Repr

/-- The attributes actually defined on a `UNet` object: the assignments in
`UNet.__init__` (blocks.py lines 192-219) plus the two methods of the
class. -/
def UNet.definedAttrs : List PyAttr :=
  [.pos_dim, .in_layer, .decoder1, .attention1, .decoder2, .attention2,
   .decoder3, .attention3, .b1, .b2, .b3, .encoder1, .attention4, .encoder2,
   .attention5, .encoder3, .attention6, .out_layer, .positional_embedding,
   .forward]

/-- Python attribute lookup on a `UNet` instance: succeeds exactly on the
attributes defined in `__init__` or on the class, otherwise raises
`AttributeError`. -/
def pyGetAttr (a : PyAttr) : Except TErr PyAttr :=
  if a ∈ UNet.definedAttrs then Except.ok a
  else Except.error TErr.attributeNotFound

/-- Semantics of `UNet.forward` (blocks.py lines 238-254).  Its body reads,
in order, the attributes `position_block`, `unet_encoder`, `unet_decoder`
and `unet_head`; none of them is ever defined, so the very first statement
`position = self.position_block(position)` raises `AttributeError` and no
tensor computation happens.  The final line is unreachable: it would
require all four lookups to succeed, which `UNet.definedAttrs` rules out. -/
def UNet.forward (x : S4) (position : ℕ) : Except TErr S4 := do
  let _ ← pyGetAttr .position_block
  let _ ← pyGetAttr .unet_encoder
  let _ ← pyGetAttr .unet_decoder
  let _ ← pyGetAttr .unet_head
  Except.error TErr.attributeNotFound

/-! ### Value-level semantics of `utils.py`

The noise schedule is computed in exact rational arithmetic (`1e-4` and
`0.02` are `1/10000` and `1/50`); the square roots taken in `add_noise`
are then carried out in ℝ.  `torch.randn_like` and `torch.randint` are
modelled by taking the entropy source as an explicit argument:
`randn_like` copies the shape of its argument and fills it from the
source; `randint low high` maps each draw into `[low, high)`. -/

/-- `torch.linspace(a, b, steps)`: `steps` evenly spaced values from `a`
to `b`, the i-th being `a + i * (b - a) / (steps - 1)`. -/
def linspace (a b : ℚ) (steps : ℕ) : List ℚ :=
  (List.range steps).map (fun i : ℕ => a + (i : ℚ) * ((b - a) / ((steps : ℚ) - 1)))

/-- `get_noise_cadence` (utils.py lines 5-12):
`torch.linspace(1e-4, 0.02, 1000)`. -/
def get_noise_cadence : List ℚ := linspace (1 / 10000) (1 / 50) 1000

/-- Helper for `cumprod`: running product with accumulator `acc`. -/
def cpAux (acc : ℚ) : List ℚ → List ℚ
  | [] => []
  | a :: t => (acc * a) :: cpAux (acc * a) t

/-- `torch.cumprod(l, dim=0)` on a 1-D tensor. -/
def cumprod (l : List ℚ) : List ℚ := cpAux 1 l

/-- The local `alpha = 1.0 - beta` of `add_noise` (utils.py line 26). -/
def alphaSeq : List ℚ := get_noise_cadence.map (fun b => 1 - b)

/-- The local `alpha_cumprod = torch.cumprod(alpha, dim=0)` of `add_noise`
(utils.py line 27). -/
def alpha_cumprod : List ℚ := cumprod alphaSeq

/-- A 1-D tensor with entries in `α`. -/
structure Tensor1 (α : Type) where
  n : ℕ
  data : ℕ → α

/-- A 4-D real tensor: its shape and its entries. -/
structure Tensor4R where
  n : ℕ
  c : ℕ
  h : ℕ
  w : ℕ
  data : ℕ → ℕ → ℕ → ℕ → ℝ

/-- Validity of a tensor of indices into a dimension of size `len`:
PyTorch accepts any index in `[-len, len)` (negative values wrap). -/
def validIndexB (len : ℕ) (pos : Tensor1 ℤ) : Bool :=
  (List.range pos.n).all
    (fun b => decide (-(len : ℤ) ≤ pos.data b) && decide (pos.data b < (len : ℤ)))

/-- The entry a (possibly negative) PyTorch index actually reads. -/
def effIndex (len : ℕ) (v : ℤ) : ℕ :=
  if v < 0 then (v + (len : ℤ)).toNat else v.toNat

/-- `l[pos]` for a 1-D tensor `l` indexed by an integer tensor `pos`:
raises `IndexError` when some entry of `pos` lies outside `[-len, len)`,
otherwise gathers (negative entries wrap, they are never clamped). -/
def indexSelect {α : Type} (l : List α) (pos : Tensor1 ℤ) (d : α) :
    Except TErr (Tensor1 α) :=
  if validIndexB l.length pos then
    Except.ok ⟨pos.n, fun b => l.getD (effIndex l.length (pos.data b)) d⟩
  else Except.error TErr.indexOutOfBounds

/-- Broadcasting of one dimension applied to an index: a size-1 dimension
always reads its only entry. -/
def bIdx (dim i : ℕ) : ℕ := if dim = 1 then 0 else i

/-- Elementwise binary operation on two 4-D tensors with PyTorch
broadcasting: the output shape combines the shapes by `bdimS` and each
input is read through `bIdx`. -/
noncomputable def broadcastOp (f : ℝ → ℝ → ℝ) (a b : Tensor4R) :
    Except TErr Tensor4R := do
  let n ← bdimS a.n b.n
  let c ← bdimS a.c b.c
  let h ← bdimS a.h b.h
  let w ← bdimS a.w b.w
  Except.ok ⟨n, c, h, w, fun i j k l =>
    f (a.data (bIdx a.n i) (bIdx a.c j) (bIdx a.h k) (bIdx a.w l))
      (b.data (bIdx b.n i) (bIdx b.c j) (bIdx b.h k) (bIdx b.w l))⟩

/-- `torch.randn_like(x)`: a tensor with the shape of `x`, filled from the
entropy source `g`. -/
def randn_like (x : Tensor4R) (g : ℕ → ℕ → ℕ → ℕ → ℝ) : Tensor4R :=
  ⟨x.n, x.c, x.h, x.w, g⟩

/-- `add_noise(x, pos)` (utils.py lines 14-31): `beta` is
`get_noise_cadence()`, `alpha = 1 - beta`, `alpha_cumprod = cumprod(alpha)`
(the named definitions above); then
`sqrt_alpha_cumprod = sqrt(alpha_cumprod[pos])[:, None, None, None]`,
`sqrt_minus_alpha_cumprod = sqrt(1 - alpha_cumprod[pos])[:, None, None, None]`,
`E = randn_like(x)` and the result is
`(sqrt_alpha_cumprod * x + sqrt_minus_alpha_cumprod * E, E)` with
broadcasting multiplications and addition. -/
noncomputable def add_noise (x : Tensor4R) (pos : Tensor1 ℤ)
    (g : ℕ → ℕ → ℕ → ℕ → ℝ) : Except TErr (Tensor4R × Tensor4R) := do
  let sel ← indexSelect alpha_cumprod pos 0
  let sqrt_alpha_cumprod : Tensor4R :=
    ⟨sel.n, 1, 1, 1, fun b _ _ _ => Real.sqrt ((sel.data b : ℚ) : ℝ)⟩
  let sqrt_minus_alpha_cumprod : Tensor4R :=
    ⟨sel.n, 1, 1, 1, fun b _ _ _ => Real.sqrt (1 - ((sel.data b : ℚ) : ℝ))⟩
  let E := randn_like x g
  let t1 ← broadcastOp (fun p q => p * q) sqrt_alpha_cumprod x
  let t2 ← broadcastOp (fun p q => p * q) sqrt_minus_alpha_cumprod E
  let noisy ← broadcastOp (fun p q => p + q) t1 t2
  Except.ok (noisy, E)

/-- `torch.randint(low, high, (size,))`: `size` independent draws, each
mapped into `[low, high)` from the entropy source `g`. -/
def randint (low high : ℤ) (size : ℕ) (g : ℕ → ℕ) : List ℤ :=
  (List.range size).map (fun i => low + (g i : ℤ) % (high - low))

/-- `get_sample_pos(size)` (utils.py lines 33-43):
`torch.randint(low=1, high=1000, size=(size,))`. -/
def get_sample_pos (size : ℕ) (g : ℕ → ℕ) : List ℤ :=
  randint 1 1000 size g

/-! ### Value-level semantics of `UNet.positional_embedding` -/

/-- The decay rate `math.log(10000) / ((dims // 2) - 1)`: the denominator
is the Python integer `(dims // 2) - 1`, so when it is zero — that is,
when `dims // 2 = 1`, i.e. `dims` is 2 or 3 — Python raises
`ZeroDivisionError`; otherwise the division is carried out in ℝ (for
`dims < 2` the integer denominator is negative, not zero, and no error is
raised). -/
noncomputable def posEmbRate (dims : ℕ) : Except TErr ℝ :=
  if (dims / 2 : ℕ) = 1 then Except.error TErr.zeroDivisionError
  else Except.ok (Real.log 10000 / (((dims / 2 : ℕ) : ℝ) - 1))

/-- `UNet.positional_embedding(position, dims)` (blocks.py lines 221-236):
computes the decay rate (raising `ZeroDivisionError` when `dims` is 2 or
3, see `posEmbRate`), then
`embeddings = exp(arange(dims // 2) * -rate)`, outer product
`position[:, None] * embeddings[None, :]`, then concatenation of the sine
and cosine halves along the last axis.  `position` is a 1-D batch of
timesteps; the result has one row per batch element. -/
noncomputable def positional_embedding (position : List ℝ) (dims : ℕ) :
    Except TErr (List (List ℝ)) := do
  let rate ← posEmbRate dims
  let freqs : List ℝ :=
    (List.range (dims / 2)).map (fun i : ℕ => Real.exp ((i : ℝ) * (-rate)))
  Except.ok (position.map (fun t =>
    (freqs.map (fun f => Real.sin (t * f))) ++ (freqs.map (fun f => Real.cos (t * f)))))

/-! ### Value-level semantics of the single-channel `ConvReluBlock` -/

/-- A single-channel, single-batch feature map of spatial size `h × w`. -/
abbrev Img (h w : ℕ) := Fin h → Fin w → ℝ

/-- Reading an image with zero padding outside its support. -/
noncomputable def readPad {h w : ℕ} (x : Img h w) (r c : ℤ) : ℝ :=
  if hb : 0 ≤ r ∧ r < (h : ℤ) ∧ 0 ≤ c ∧ c < (w : ℤ) then
    x ⟨r.toNat, by omega⟩ ⟨c.toNat, by omega⟩
  else 0

/-- `nn.Conv2d(1, 1, kernel_size=3, padding=1, bias=False)` (the `conv1`
of `ConvReluBlock` at one channel): 3×3 kernel `K`, padding 1, no bias;
the spatial size is preserved. -/
noncomputable def conv3p1 {h w : ℕ} (K : Fin 3 → Fin 3 → ℝ) (x : Img h w) :
    Img h w :=
  fun i j => ∑ a : Fin 3, ∑ c : Fin 3,
    K a c * readPad x ((i : ℤ) + (a : ℤ) - 1) ((j : ℤ) + (c : ℤ) - 1)

/-- `nn.Conv2d(1, 1, kernel_size=3)` (the `conv2` of `ConvReluBlock` at
one channel): 3×3 kernel `K`, no padding, bias `b`; each spatial size
shrinks by 2. -/
noncomputable def conv3p0 {h w : ℕ} (K : Fin 3 → Fin 3 → ℝ) (b : ℝ)
    (x : Img h w) : Img (h - 2) (w - 2) :=
  fun i j => b + ∑ a : Fin 3, ∑ c : Fin 3,
    K a c * readPad x ((i : ℤ) + (a : ℤ)) ((j : ℤ) + (c : ℤ))

/-- Mean of all entries (the one group of `GroupNorm(1, 1)`). -/
noncomputable def gmean {h w : ℕ} (x : Img h w) : ℝ :=
  (∑ i, ∑ j, x i j) / ((h : ℝ) * (w : ℝ))

/-- Biased variance of all entries, as PyTorch group norm computes it. -/
noncomputable def gvar {h w : ℕ} (x : Img h w) : ℝ :=
  (∑ i, ∑ j, (x i j - gmean x) ^ 2) / ((h : ℝ) * (w : ℝ))

/-- `nn.GroupNorm(1, 1)` on a single-channel map: normalize by mean and
biased variance over the whole map, then apply the affine weight `γ` and
bias `β`; `eps` is PyTorch's stabilizer (default `1e-5`). -/
noncomputable def groupNorm1 {h w : ℕ} (γ β eps : ℝ) (x : Img h w) : Img h w :=
  fun i j => (x i j - gmean x) / Real.sqrt (gvar x + eps) * γ + β

/-- Elementwise ReLU. -/
noncomputable def reluI {h w : ℕ} (x : Img h w) : Img h w :=
  fun i j => max (x i j) 0

/-- Value semantics of `ConvReluBlock.forward` with
`residual_connection=True` at one channel, on a 3×3 input — the only
spatial size at which the residual addition broadcasts (the `conv2` output
is then 1×1).  Follows blocks.py lines 29-55 line by line:
`x1 = conv1(x)`, `x2 = gNorm(x1)`, `x3 = relu(x2)`, `x4 = conv2(x3)`,
`x5 = gNorm(x4)`, and the residual branch returns `F.relu(x + x5)`
(so the input is added to the output of the second normalization). -/
noncomputable def ConvReluBlock.forwardVal (K1 K2 : Fin 3 → Fin 3 → ℝ)
    (b2 γ β eps : ℝ) (x : Img 3 3) : Img 3 3 :=
  let x1 := conv3p1 K1 x
  let x2 := groupNorm1 γ β eps x1
  let x3 := reluI x2
  let x4 : Img 1 1 := conv3p0 K2 b2 x3
  let x5 := groupNorm1 γ β eps x4
  fun i j => max (x i j + x5 0 0) 0

/-- Modelled from the spec (spec section 4.3, Variant A), for comparison
with `ConvReluBlock.forwardVal` only: the same block but with the
"residual (skip) addition before the second normalization", i.e.
`x4 = conv2(x3)`, `x4b = x4 + x`, `x5 = gNorm(x4b)`, result `relu(x5)`. -/
noncomputable def ConvReluBlock.forwardValSpec (K1 K2 : Fin 3 → Fin 3 → ℝ)
    (b2 γ β eps : ℝ) (x : Img 3 3) : Img 3 3 :=
  let x1 := conv3p1 K1 x
  let x2 := groupNorm1 γ β eps x1
  let x3 := reluI x2
  let x4 : Img 1 1 := conv3p0 K2 b2 x3
  let x4b : Img 3 3 := fun i j => x4 0 0 + x i j
  reluI (groupNorm1 γ β eps x4b)

/-! ### Lemmas about the noise schedule -/

theorem length_get_noise_cadence : get_noise_cadence.length = 1000 := by
  unfold get_noise_cadence linspace
  rw [List.length_map, List.length_range]

theorem getD_get_noise_cadence (i : ℕ) (hi : i < 1000) :
    get_noise_cadence.getD i 0 =
      1 / 10000 + (i : ℚ) * ((1 / 50 - 1 / 10000) / 999) := by
  unfold get_noise_cadence linspace
  simp [List.getD_eq_getElem?_getD, List.getElem?_map, List.getElem?_range, hi]
  norm_num

theorem linspace_val_bounds (i : ℕ) (hi : i < 1000) :
    1 / 10000 ≤ 1 / 10000 + (i : ℚ) * ((1 / 50 - 1 / 10000) / 999) ∧
      1 / 10000 + (i : ℚ) * ((1 / 50 - 1 / 10000) / 999) ≤ 1 / 50 := by
  have h0 : (0 : ℚ) ≤ (i : ℚ) * ((1 / 50 - 1 / 10000) / 999) := by positivity
  have h999 : (i : ℚ) ≤ 999 := by exact_mod_cast Nat.lt_succ_iff.mp hi
  have hstep : (0 : ℚ) ≤ (1 / 50 - 1 / 10000) / 999 := by norm_num
  have hmul : (i : ℚ) * ((1 / 50 - 1 / 10000) / 999) ≤
      999 * ((1 / 50 - 1 / 10000) / 999) := mul_le_mul_of_nonneg_right h999 hstep
  constructor
  · linarith
  · nlinarith

theorem mem_get_noise_cadence (b : ℚ) (hb : b ∈ get_noise_cadence) :
    1 / 10000 ≤ b ∧ b ≤ 1 / 50 := by
  unfold get_noise_cadence linspace at hb
  rw [List.mem_map] at hb
  obtain ⟨i, hi, rfl⟩ := hb
  rw [List.mem_range] at hi
  have := linspace_val_bounds i hi
  constructor
  · calc (1 : ℚ) / 10000 ≤ _ := this.1
      _ = _ := by norm_num
  · calc _ = 1 / 10000 + (i : ℚ) * ((1 / 50 - 1 / 10000) / 999) := by norm_num
      _ ≤ 1 / 50 := this.2

theorem mem_alphaSeq (x : ℚ) (hx : x ∈ alphaSeq) : 0 ≤ x ∧ x ≤ 1 := by
  unfold alphaSeq at hx
  rw [List.mem_map] at hx
  obtain ⟨b, hb, rfl⟩ := hx
  have := mem_get_noise_cadence b hb
  constructor <;> linarith [this.1, this.2]

theorem cpAux_length (l : List ℚ) : ∀ acc : ℚ, (cpAux acc l).length = l.length := by
  induction l with
  | nil => intro acc; rfl
  | cons a t ih => intro acc; simp [cpAux, ih]

theorem length_alpha_cumprod : alpha_cumprod.length = 1000 := by
  unfold alpha_cumprod cumprod alphaSeq
  rw [cpAux_length, List.length_map, length_get_noise_cadence]

theorem cpAux_head_le (t : List ℚ) (acc : ℚ) (ha : 0 ≤ acc)
    (hm : ∀ x ∈ t, 0 ≤ x ∧ x ≤ 1) (ht : 0 < t.length) :
    0 ≤ (cpAux acc t).getD 0 0 ∧ (cpAux acc t).getD 0 0 ≤ acc := by
  cases t with
  | nil => simp at ht
  | cons b t2 =>
    obtain ⟨hb0, hb1⟩ := hm b (List.mem_cons_self b t2)
    constructor
    · simpa [cpAux] using mul_nonneg ha hb0
    · simpa [cpAux] using mul_le_of_le_one_right ha hb1

theorem cpAux_antitone (l : List ℚ) : ∀ (acc : ℚ) (i : ℕ), 0 ≤ acc →
    (∀ x ∈ l, 0 ≤ x ∧ x ≤ 1) → i + 1 < l.length →
    (cpAux acc l).getD (i + 1) 0 ≤ (cpAux acc l).getD i 0 := by
  induction l with
  | nil => intro acc i _ _ h; simp at h
  | cons a t ih =>
    intro acc i hacc hm hi
    obtain ⟨ha0, ha1⟩ := hm a (List.mem_cons_self a t)
    have hmt : ∀ x ∈ t, 0 ≤ x ∧ x ≤ 1 := fun x hx => hm x (List.mem_cons_of_mem a hx)
    cases i with
    | zero =>
      have ht : 0 < t.length := by simp at hi; omega
      have := cpAux_head_le t (acc * a) (mul_nonneg hacc ha0) hmt ht
      simpa [cpAux] using this.2
    | succ k =>
      have := ih (acc * a) k (mul_nonneg hacc ha0) hmt (by simp at hi ⊢; omega)
      simpa [cpAux] using this

/-! ### Claims C4 and C7: the noise schedule and its cumulative product -/

/-- Claim C4: `get_noise_cadence()` returns a sequence of exactly 1000
linearly spaced variance values, every value lying within
`[1e-4, 0.02]`, and the sequence is monotonically non-decreasing. -/
theorem C4_noise_cadence_schedule :
    get_noise_cadence.length = 1000 ∧
    (∀ i, i < 1000 →
      1 / 10000 ≤ get_noise_cadence.getD i 0 ∧
        get_noise_cadence.getD i 0 ≤ 1 / 50) ∧
    (∀ i, i + 1 < 1000 →
      get_noise_cadence.getD i 0 ≤ get_noise_cadence.getD (i + 1) 0) := by
  refine ⟨length_get_noise_cadence, ?_, ?_⟩
  · intro i hi
    rw [getD_get_noise_cadence i hi]
    exact linspace_val_bounds i hi
  · intro i hi
    rw [getD_get_noise_cadence i (by omega), getD_get_noise_cadence (i + 1) hi]
    have hstep : (0 : ℚ) ≤ (1 / 50 - 1 / 10000) / 999 := by norm_num
    have hcast : ((i + 1 : ℕ) : ℚ) = (i : ℚ) + 1 := by push_cast; ring
    rw [hcast]
    nlinarith

/-- Witness for C4 at the concrete index 0. -/
theorem C4_noise_cadence_schedule_witness :
    (0 : ℕ) < 1000 ∧
    (1 / 10000 ≤ get_noise_cadence.getD 0 0 ∧ get_noise_cadence.getD 0 0 ≤ 1 / 50) ∧
    get_noise_cadence.getD 0 0 ≤ get_noise_cadence.getD 1 0 :=
  ⟨by norm_num, C4_noise_cadence_schedule.2.1 0 (by norm_num),
    C4_noise_cadence_schedule.2.2 0 (by norm_num)⟩

/-- Claim C7: `alpha_cumprod`, computed in `add_noise` as the cumulative
product of `(1 - beta)` over the schedule of `get_noise_cadence`, is
monotonically non-increasing in `t`, and `alpha_cumprod[0]` equals
`1 - beta[0]` exactly (in particular it is close to it). -/
theorem C7_alpha_cumprod_antitone :
    (∀ i, i + 1 < 1000 →
      alpha_cumprod.getD (i + 1) 0 ≤ alpha_cumprod.getD i 0) ∧
    alpha_cumprod.getD 0 0 = 1 - get_noise_cadence.getD 0 0 := by
  constructor
  · intro i hi
    unfold alpha_cumprod cumprod
    apply cpAux_antitone alphaSeq 1 i (by norm_num) mem_alphaSeq
    unfold alphaSeq
    rw [List.length_map, length_get_noise_cadence]
    exact hi
  · have h0 : 0 < get_noise_cadence.length := by rw [length_get_noise_cadence]; norm_num
    obtain ⟨b, t, hbt⟩ := List.exists_cons_of_ne_nil (List.length_pos.mp h0)
    unfold alpha_cumprod cumprod alphaSeq
    rw [hbt]
    simp [cpAux]

/-- Witness for C7 at the concrete index 0. -/
theorem C7_alpha_cumprod_antitone_witness :
    (0 : ℕ) + 1 < 1000 ∧ alpha_cumprod.getD 1 0 ≤ alpha_cumprod.getD 0 0 :=
  ⟨by norm_num, C7_alpha_cumprod_antitone.1 0 (by norm_num)⟩

/-! ### Claim C9: the timestep sampler -/

/-- Claim C9: for every positive `n`, `get_sample_pos(n)` returns a tensor
of shape `(n,)` whose every element is an integer in `[1, 1000)`. -/
theorem C9_get_sample_pos_range (size : ℕ) (g : ℕ → ℕ) (hs : 0 < size) :
    (get_sample_pos size g).length = size ∧
    ∀ v ∈ get_sample_pos size g, 1 ≤ v ∧ v < 1000 := by
  constructor
  · rw [get_sample_pos, randint, List.length_map, List.length_range]
  · intro v hv
    rw [get_sample_pos, randint, List.mem_map] at hv
    obtain ⟨i, _, rfl⟩ := hv
    have h1 := Int.emod_nonneg ((g i : ℤ)) (by norm_num : (1000 - 1 : ℤ) ≠ 0)
    have h2 := Int.emod_lt_of_pos ((g i : ℤ)) (by norm_num : (0 : ℤ) < 1000 - 1)
    omega

/-- Witness for C9 at `n = 1` with the zero entropy source. -/
theorem C9_get_sample_pos_range_witness :
    (0 : ℕ) < 1 ∧ ((get_sample_pos 1 (fun _ => 0)).length = 1 ∧
      ∀ v ∈ get_sample_pos 1 (fun _ => 0), 1 ≤ v ∧ v < 1000) :=
  ⟨by norm_num, C9_get_sample_pos_range 1 (fun _ => 0) (by norm_num)⟩

/-! ### Lemmas about broadcasting and indexing -/

theorem bdimS_self (p : ℕ) : bdimS p p = Except.ok p := by
  simp [bdimS]

theorem bdimS_one_left (q : ℕ) : bdimS 1 q = Except.ok q := by
  unfold bdimS
  split_ifs with h1 h2 <;> simp_all

theorem bIdx_self (d i : ℕ) (h : i < d) : bIdx d i = i := by
  unfold bIdx
  split_ifs with h1 <;> omega

theorem bIdx_one (i : ℕ) : bIdx 1 i = 0 := by
  simp [bIdx]

theorem effIndex_ofNonneg (len : ℕ) (v : ℤ) (h : 0 ≤ v) :
    effIndex len v = v.toNat := by
  unfold effIndex
  split_ifs with h1
  · omega
  · rfl

theorem validIndexB_true (len : ℕ) (pos : Tensor1 ℤ)
    (h : ∀ b < pos.n, -(len : ℤ) ≤ pos.data b ∧ pos.data b < (len : ℤ)) :
    validIndexB len pos = true := by
  unfold validIndexB
  rw [List.all_eq_true]
  intro b hb
  rw [List.mem_range] at hb
  obtain ⟨h1, h2⟩ := h b hb
  simp [h1, h2]

theorem validIndexB_false (len : ℕ) (pos : Tensor1 ℤ) (b : ℕ) (hb : b < pos.n)
    (h : (len : ℤ) ≤ pos.data b ∨ pos.data b < -(len : ℤ)) :
    validIndexB len pos = false := by
  by_contra hc
  have hc2 : validIndexB len pos = true := by
    revert hc
    cases validIndexB len pos <;> simp
  unfold validIndexB at hc2
  rw [List.all_eq_true] at hc2
  have := hc2 b (List.mem_range.mpr hb)
  simp at this
  omega

theorem broadcastOp_one_left (f : ℝ → ℝ → ℝ) (n c h w : ℕ)
    (cl d : ℕ → ℕ → ℕ → ℕ → ℝ) :
    broadcastOp f ⟨n, 1, 1, 1, cl⟩ ⟨n, c, h, w, d⟩ =
      Except.ok ⟨n, c, h, w, fun i j k l =>
        f (cl (bIdx n i) (bIdx 1 j) (bIdx 1 k) (bIdx 1 l))
          (d (bIdx n i) (bIdx c j) (bIdx h k) (bIdx w l))⟩ := by
  unfold broadcastOp
  rw [bdimS_self, bdimS_one_left, bdimS_one_left, bdimS_one_left]
  rfl

theorem broadcastOp_same_shape (f : ℝ → ℝ → ℝ) (n c h w : ℕ)
    (d1 d2 : ℕ → ℕ → ℕ → ℕ → ℝ) :
    broadcastOp f ⟨n, c, h, w, d1⟩ ⟨n, c, h, w, d2⟩ =
      Except.ok ⟨n, c, h, w, fun i j k l =>
        f (d1 (bIdx n i) (bIdx c j) (bIdx h k) (bIdx w l))
          (d2 (bIdx n i) (bIdx c j) (bIdx h k) (bIdx w l))⟩ := by
  unfold broadcastOp
  rw [bdimS_self, bdimS_self, bdimS_self, bdimS_self]
  rfl

theorem ebind_ok {α β : Type} (a : α) (f : α → Except TErr β) :
    (Except.ok a >>= f) = f a := rfl

/-! ### Claim C2: the forward-noising operator -/

/-- Claim C2: for every image tensor `x` and every in-range batch of
timesteps `pos` (one per batch element, as the source indexes
`alpha_cumprod[pos]`), `add_noise` returns a pair `(noisy, noise)` where
`noise` is the `randn_like` draw with the shape of `x`, `noisy` has the
shape of `x`, and elementwise
`noisy = sqrt(alpha_cumprod[t]) * x + sqrt(1 - alpha_cumprod[t]) * noise`
with `t` the timestep of the corresponding batch element. -/
theorem claim_C2_add_noise_formula (x : Tensor4R) (pos : Tensor1 ℤ)
    (g : ℕ → ℕ → ℕ → ℕ → ℝ) (hn : pos.n = x.n)
    (hr : ∀ b < pos.n, 0 ≤ pos.data b ∧ pos.data b < 1000) :
    ∃ noisy : Tensor4R,
      add_noise x pos g = Except.ok (noisy, randn_like x g) ∧
      (noisy.n = x.n ∧ noisy.c = x.c ∧ noisy.h = x.h ∧ noisy.w = x.w) ∧
      ((randn_like x g).n = x.n ∧ (randn_like x g).c = x.c ∧
        (randn_like x g).h = x.h ∧ (randn_like x g).w = x.w) ∧
      ∀ i j k l, i < x.n → j < x.c → k < x.h → l < x.w →
        noisy.data i j k l =
          Real.sqrt ((alpha_cumprod.getD (pos.data i).toNat 0 : ℚ) : ℝ) * x.data i j k l +
          Real.sqrt (1 - ((alpha_cumprod.getD (pos.data i).toNat 0 : ℚ) : ℝ)) *
            (randn_like x g).data i j k l := by
  obtain ⟨xn, xc, xh, xw, xd⟩ := x
  obtain ⟨pn, pd⟩ := pos
  have hn2 : pn = xn := hn
  subst hn2
  dsimp only at hr hn ⊢
  have hval : validIndexB alpha_cumprod.length ⟨pn, pd⟩ = true := by
    rw [length_alpha_cumprod]
    refine validIndexB_true 1000 ⟨pn, pd⟩ (fun b hb => ⟨?_, ?_⟩)
    · have := (hr b hb).1
      dsimp only at this ⊢
      push_cast
      omega
    · have := (hr b hb).2
      dsimp only at this ⊢
      push_cast
      omega
  have hsel : indexSelect alpha_cumprod ⟨pn, pd⟩ (0 : ℚ) =
      Except.ok ⟨pn, fun b => alpha_cumprod.getD (effIndex 1000 (pd b)) 0⟩ := by
    unfold indexSelect
    rw [hval]
    simp [length_alpha_cumprod]
  unfold add_noise
  rw [hsel, ebind_ok]
  dsimp only [randn_like]
  rw [broadcastOp_one_left, ebind_ok, broadcastOp_one_left, ebind_ok,
    broadcastOp_same_shape, ebind_ok]
  refine ⟨_, rfl, ⟨rfl, rfl, rfl, rfl⟩, ⟨rfl, rfl, rfl, rfl⟩, ?_⟩
  intro i j k l hi hj hk hl
  dsimp only
  simp only [bIdx_self pn i hi, bIdx_self xc j hj, bIdx_self xh k hk,
    bIdx_self xw l hl, effIndex_ofNonneg 1000 (pd i) (hr i hi).1]

/-- Witness for C2 on a concrete 1×1×1×1 image at timestep 0. -/
theorem claim_C2_add_noise_formula_witness :
    ((⟨1, fun _ => 0⟩ : Tensor1 ℤ).n = (⟨1, 1, 1, 1, fun _ _ _ _ => 0⟩ : Tensor4R).n) ∧
    (∀ b < (⟨1, fun _ => 0⟩ : Tensor1 ℤ).n,
      0 ≤ (⟨1, fun _ => 0⟩ : Tensor1 ℤ).data b ∧
        (⟨1, fun _ => 0⟩ : Tensor1 ℤ).data b < 1000) ∧
    ∃ noisy : Tensor4R,
      add_noise ⟨1, 1, 1, 1, fun _ _ _ _ => 0⟩ ⟨1, fun _ => 0⟩ (fun _ _ _ _ => 0) =
        Except.ok (noisy, randn_like ⟨1, 1, 1, 1, fun _ _ _ _ => 0⟩ (fun _ _ _ _ => 0)) := by
  refine ⟨rfl, fun b _ => ⟨le_refl 0, by norm_num⟩, ?_⟩
  obtain ⟨noisy, hok, -⟩ :=
    claim_C2_add_noise_formula ⟨1, 1, 1, 1, fun _ _ _ _ => 0⟩ ⟨1, fun _ => 0⟩
      (fun _ _ _ _ => 0) rfl (fun b _ => ⟨le_refl 0, by norm_num⟩)
  exact ⟨noisy, hok⟩

/-! ### Claim C6: out-of-range timesteps -/

/-- Amended claim C6: calling `add_noise` with some timestep `t ≥ 1000` or
`t < -1000` raises an index error; but a timestep in `[-1000, -1]`,
although outside `[0, 1000)`, is accepted silently (it wraps, see the
counterexample below); timesteps are never clamped. -/
theorem claim_C6_out_of_range_index (x : Tensor4R) (pos : Tensor1 ℤ)
    (g : ℕ → ℕ → ℕ → ℕ → ℝ) (b : ℕ) (hb : b < pos.n)
    (hout : (1000 : ℤ) ≤ pos.data b ∨ pos.data b < -1000) :
    add_noise x pos g = Except.error TErr.indexOutOfBounds := by
  have hval : validIndexB alpha_cumprod.length pos = false := by
    rw [length_alpha_cumprod]
    refine validIndexB_false 1000 pos b hb ?_
    rcases hout with h | h
    · left
      push_cast
      omega
    · right
      push_cast
      omega
  unfold add_noise indexSelect
  rw [hval]
  rfl

set_option maxRecDepth 40000 in
/-- Counterexample to C6 as stated: the timestep `-1` lies outside
`[0, 1000)`, yet `add_noise` does not raise — it silently wraps the index
and returns a result. -/
theorem claim_C6_counterexample :
    (-1 : ℤ) < 0 ∧
    isOkE (add_noise ⟨1, 1, 1, 1, fun _ _ _ _ => 0⟩ ⟨1, fun _ => -1⟩
      (fun _ _ _ _ => 0)) = true :=
  ⟨by norm_num, rfl⟩

/-- Witness for the amended C6 at the concrete timestep 1000. -/
theorem claim_C6_out_of_range_index_witness :
    (0 : ℕ) < 1 ∧ (1000 : ℤ) ≤ 1000 ∧
    add_noise ⟨1, 1, 1, 1, fun _ _ _ _ => 0⟩ ⟨1, fun _ => 1000⟩
      (fun _ _ _ _ => 0) = Except.error TErr.indexOutOfBounds :=
  ⟨by norm_num, by norm_num,
    claim_C6_out_of_range_index _ _ _ 0 (by norm_num) (Or.inl (by norm_num))⟩

/-! ### Lemmas about the shape semantics of the blocks -/

theorem isOkE_false_iff {α : Type} (r : Except TErr α) :
    isOkE r = false ↔ ∃ e, r = Except.error e := by
  cases r <;> simp [isOkE]

theorem ConvReluBlockS_res_error (din dout : ℕ) (s : S4)
    (hs : ¬(s.h = 3 ∧ s.w = 3)) :
    isOkE (ConvReluBlockS din dout true s) = false := by
  obtain ⟨n, c, h, w⟩ := s
  dsimp only at hs
  unfold ConvReluBlockS
  by_cases hc : c = din
  case neg =>
    have h0 : conv2dS din dout 3 1 ⟨n, c, h, w⟩ = Except.error TErr.convChannelMismatch := by
      unfold conv2dS
      rw [if_neg hc]
    rw [h0]
    rfl
  case pos =>
    by_cases hhw : 3 ≤ h + 2 * 1 ∧ 3 ≤ w + 2 * 1
    case neg =>
      have h0 : conv2dS din dout 3 1 ⟨n, c, h, w⟩ = Except.error TErr.convOutputTooSmall := by
        unfold conv2dS
        rw [if_pos hc, if_neg hhw]
      rw [h0]
      rfl
    case pos =>
      have h1 : conv2dS din dout 3 1 ⟨n, c, h, w⟩ = Except.ok ⟨n, dout, h, w⟩ := by
        unfold conv2dS
        rw [if_pos hc, if_pos hhw,
          (show h + 2 * 1 - 3 + 1 = h by omega), (show w + 2 * 1 - 3 + 1 = w by omega)]
      rw [h1, ebind_ok]
      have h2 : groupNormS dout ⟨n, dout, h, w⟩ = Except.ok ⟨n, dout, h, w⟩ := by
        unfold groupNormS
        rw [if_pos rfl]
      rw [h2, ebind_ok]
      dsimp only
      by_cases hh3 : 3 ≤ h + 2 * 0 ∧ 3 ≤ w + 2 * 0
      case neg =>
        have h0 : conv2dS dout dout 3 0 (reluS ⟨n, dout, h, w⟩) = Except.error TErr.convOutputTooSmall := by
          unfold conv2dS reluS
          rw [if_pos rfl, if_neg hh3]
        rw [h0]
        rfl
      case pos =>
        have h3 : conv2dS dout dout 3 0 (reluS ⟨n, dout, h, w⟩) = Except.ok ⟨n, dout, h - 2, w - 2⟩ := by
          unfold conv2dS reluS
          rw [if_pos rfl, if_pos hh3,
            (show h + 2 * 0 - 3 + 1 = h - 2 by omega), (show w + 2 * 0 - 3 + 1 = w - 2 by omega)]
        rw [h3, ebind_ok]
        have h4 : groupNormS dout ⟨n, dout, h - 2, w - 2⟩ = Except.ok ⟨n, dout, h - 2, w - 2⟩ := by
          unfold groupNormS
          rw [if_pos rfl]
        rw [h4, ebind_ok, if_pos rfl]
        unfold addS
        dsimp only
        rw [bdimS_self, ebind_ok]
        cases hbc : bdimS c dout with
        | error e =>
          rfl
        | ok cc =>
          rw [ebind_ok]
          by_cases hh : h = 3
          · have hw3 : w ≠ 3 := fun hw => hs ⟨hh, hw⟩
            have hbh : bdimS h (h - 2) = Except.ok h := by
              subst hh
              rfl
            rw [hbh, ebind_ok]
            have hbw : bdimS w (w - 2) = Except.error TErr.broadcastMismatch := by
              unfold bdimS
              rw [if_neg (by omega), if_neg (by omega), if_neg (by omega)]
            rw [hbw]
            rfl
          · have hbh : bdimS h (h - 2) = Except.error TErr.broadcastMismatch := by
              unfold bdimS
              rw [if_neg (by omega), if_neg (by omega), if_neg (by omega)]
            rw [hbh]
            rfl

theorem DecoderBlockS_error (din dout emb : ℕ) (x skip : S4) (position : S2) :
    isOkE (DecoderBlockS din dout emb x skip position) = false := by
  unfold DecoderBlockS
  by_cases hcond : 1 ≤ x.h ∧ 1 ≤ x.w
  case neg =>
    have h0 : upsample2S x = Except.error TErr.upsampleEmpty := by
      unfold upsample2S
      rw [if_neg hcond]
    rw [h0]
    rfl
  case pos =>
    have h0 : upsample2S x = Except.ok ⟨x.n, x.c, 2 * x.h, 2 * x.w⟩ := by
      unfold upsample2S
      rw [if_pos hcond]
    rw [h0, ebind_ok]
    by_cases hcat : skip.n = x.n ∧ skip.h = 2 * x.h ∧ skip.w = 2 * x.w
    case neg =>
      have h1 : catS skip ⟨x.n, x.c, 2 * x.h, 2 * x.w⟩ = Except.error TErr.catSizeMismatch := by
        unfold catS
        rw [if_neg hcat]
      rw [h1]
      rfl
    case pos =>
      have h1 : catS skip ⟨x.n, x.c, 2 * x.h, 2 * x.w⟩ =
          Except.ok ⟨skip.n, skip.c + x.c, skip.h, skip.w⟩ := by
        unfold catS
        rw [if_pos hcat]
      rw [h1, ebind_ok]
      have hcr := ConvReluBlockS_res_error din din ⟨skip.n, skip.c + x.c, skip.h, skip.w⟩
        (by
          intro hq
          obtain ⟨e1, e2⟩ := hq
          dsimp only at e1
          obtain ⟨-, hh, -⟩ := hcat
          omega)
      rw [isOkE_false_iff] at hcr
      obtain ⟨e, he⟩ := hcr
      rw [he]
      rfl

theorem EncoderBlockS_error (din dout emb : ℕ) (x : S4) (position : S2)
    (hp : ¬(x.h / 2 = 3 ∧ x.w / 2 = 3)) :
    isOkE (EncoderBlockS din dout emb x position) = false := by
  unfold EncoderBlockS
  by_cases hcond : 2 ≤ x.h ∧ 2 ≤ x.w
  case neg =>
    have h0 : maxPool2S x = Except.error TErr.poolOutputTooSmall := by
      unfold maxPool2S
      rw [if_neg hcond]
    rw [h0]
    rfl
  case pos =>
    have h0 : maxPool2S x = Except.ok ⟨x.n, x.c, x.h / 2, x.w / 2⟩ := by
      unfold maxPool2S
      rw [if_pos hcond]
    rw [h0, ebind_ok]
    have hcr := ConvReluBlockS_res_error din din ⟨x.n, x.c, x.h / 2, x.w / 2⟩
      (by
        intro hq
        exact hp ⟨hq.1, hq.2⟩)
    rw [isOkE_false_iff] at hcr
    obtain ⟨e, he⟩ := hcr
    rw [he]
    rfl

/-! ### Claim C10: spatial incompatibility of the residual blocks -/

/-- Amended claim C10: `ConvReluBlock.forward` with
`residual_connection=True` raises a shape error on every input whose
height and width are not both exactly 3 (`conv2` has kernel 3 and no
padding, so the residual `x + x5` only broadcasts when the `conv2` output
is 1×1); consequently `DecoderBlock.forward` (whose residual block sees
the doubled, hence even, upsampled size) never returns normally on any
input, while `EncoderBlock.forward` (which pools before its residual
block) raises whenever the pooled size is not 3×3 — but does return
normally on 6×6 or 7×7 inputs, see the counterexample. -/
theorem claim_C10_residual_spatial_errors :
    (∀ din dout : ℕ, ∀ s : S4, ¬(s.h = 3 ∧ s.w = 3) →
      isOkE (ConvReluBlockS din dout true s) = false) ∧
    (∀ din dout emb : ℕ, ∀ x skip : S4, ∀ position : S2,
      isOkE (DecoderBlockS din dout emb x skip position) = false) ∧
    (∀ din dout emb : ℕ, ∀ x : S4, ∀ position : S2,
      ¬(x.h / 2 = 3 ∧ x.w / 2 = 3) →
      isOkE (EncoderBlockS din dout emb x position) = false) :=
  ⟨fun din dout s hs => ConvReluBlockS_res_error din dout s hs,
    fun din dout emb x skip position => DecoderBlockS_error din dout emb x skip position,
    fun din dout emb x position hp => EncoderBlockS_error din dout emb x position hp⟩

/-- Counterexample to C10 as stated: a 6×6 input does not have height and
width both 3, yet `EncoderBlock.forward` returns normally on it (the
max-pool first reduces 6×6 to 3×3, where the residual block broadcasts). -/
theorem claim_C10_counterexample :
    ¬((6 : ℕ) = 3 ∧ (6 : ℕ) = 3) ∧
    EncoderBlockS 64 128 256 ⟨1, 64, 6, 6⟩ ⟨1, 256⟩ = Except.ok ⟨1, 128, 1, 1⟩ :=
  ⟨by decide, rfl⟩

/-- Witness for the amended C10 on a concrete 4×4 input. -/
theorem claim_C10_residual_spatial_errors_witness :
    ¬((4 : ℕ) = 3 ∧ (4 : ℕ) = 3) ∧
    isOkE (ConvReluBlockS 1 1 true ⟨1, 1, 4, 4⟩) = false :=
  ⟨by decide, claim_C10_residual_spatial_errors.1 1 1 ⟨1, 1, 4, 4⟩ (by decide)⟩

/-! ### Claim C3: the decoder and the skip tensor -/

/-- Amended claim C3: `DecoderBlock.forward` first upsamples the input and
then concatenates the skip tensor directly with the upsampled tensor on
the channel axis, before the fusing convolution blocks, without any crop:
whenever the skip tensor's spatial size differs from the upsampled spatial
size, the concatenation raises a size-mismatch error instead of
center-cropping the skip tensor. -/
theorem claim_C3_decoder_no_crop (din dout emb : ℕ) (x skip : S4)
    (position : S2) (hx : 1 ≤ x.h) (hw : 1 ≤ x.w)
    (hmm : skip.h ≠ 2 * x.h ∨ skip.w ≠ 2 * x.w) :
    DecoderBlockS din dout emb x skip position =
      Except.error TErr.catSizeMismatch := by
  unfold DecoderBlockS
  have h0 : upsample2S x = Except.ok ⟨x.n, x.c, 2 * x.h, 2 * x.w⟩ := by
    unfold upsample2S
    rw [if_pos ⟨hx, hw⟩]
  rw [h0, ebind_ok]
  have h1 : catS skip ⟨x.n, x.c, 2 * x.h, 2 * x.w⟩ =
      Except.error TErr.catSizeMismatch := by
    unfold catS
    rw [if_neg]
    intro hq
    obtain ⟨-, e2, e3⟩ := hq
    dsimp only at e2 e3
    rcases hmm with h | h
    · exact h e2
    · exact h e3
  rw [h1]
  rfl

/-- Counterexample to C3 as stated: on an input whose skip tensor is
larger than the upsampled tensor (skip 10×10, upsampled 8×8), the source
`DecoderBlock.forward` fails at the concatenation with a size-mismatch
error, while the spec-modelled crop-then-concatenate decoder proceeds past
the concatenation (and later stops with a different, broadcast error in
the residual block): the two differ, so the source does not center-crop
before concatenating. -/
theorem claim_C3_decoder_no_crop_counterexample :
    DecoderBlockS 64 32 256 ⟨1, 32, 4, 4⟩ ⟨1, 32, 10, 10⟩ ⟨1, 256⟩ ≠
      DecoderBlockSpecS 64 32 256 ⟨1, 32, 4, 4⟩ ⟨1, 32, 10, 10⟩ ⟨1, 256⟩ := by
  intro h
  have h1 : DecoderBlockS 64 32 256 ⟨1, 32, 4, 4⟩ ⟨1, 32, 10, 10⟩ ⟨1, 256⟩ =
      Except.error TErr.catSizeMismatch := rfl
  have h2 : DecoderBlockSpecS 64 32 256 ⟨1, 32, 4, 4⟩ ⟨1, 32, 10, 10⟩ ⟨1, 256⟩ =
      Except.error TErr.broadcastMismatch := rfl
  rw [h1, h2] at h
  injection h with h3
  exact absurd h3 (by decide)

/-- Witness for the amended C3 on concrete mismatched shapes. -/
theorem claim_C3_decoder_no_crop_witness :
    (1 : ℕ) ≤ 5 ∧ (11 : ℕ) ≠ 2 * 5 ∧
    DecoderBlockS 4 4 8 ⟨1, 2, 5, 5⟩ ⟨1, 2, 11, 11⟩ ⟨1, 8⟩ =
      Except.error TErr.catSizeMismatch :=
  ⟨by decide, by decide,
    claim_C3_decoder_no_crop 4 4 8 ⟨1, 2, 5, 5⟩ ⟨1, 2, 11, 11⟩ ⟨1, 8⟩
      (by decide) (by decide) (Or.inl (by decide))⟩

/-! ### Claim C1: the UNet forward pass -/

/-- Claim C1 records the intended behavior of `UNet.forward`; the code
cannot deliver it: the method's first statement reads the attribute
`position_block`, which `UNet.__init__` never defines (nor are
`unet_encoder`, `unet_decoder`, `unet_head`), so on the claim's input of
shape (2, 1, 256, 256) with timestep batch of shape (2,) — and on every
other input — `UNet.forward` raises `AttributeError` before any
embedding, encoding, decoding or projection happens. -/
theorem claim_C1_unet_forward_attribute_error :
    UNet.forward ⟨2, 1, 256, 256⟩ 2 = Except.error TErr.attributeNotFound ∧
    ∀ (x : S4) (position : ℕ),
      UNet.forward x position = Except.error TErr.attributeNotFound :=
  ⟨rfl, fun _ _ => rfl⟩

/-! ### Claim C8: the sinusoidal timestep embedding -/

/-- Claim C8: for an even embedding width `dims` of at least 4 (the
source raises `ZeroDivisionError` at `dims = 2`, where the integer
denominator `(dims // 2) - 1` is zero; the UNet instantiates
`pos_dim = 256`), `UNet.positional_embedding(position, dims)` returns
normally and maps each of the batched timesteps to a `dims`-length vector
whose first half is `sin(t * exp(j * -(log(10000)/((dims // 2) - 1))))`
and whose second half is the matching cosine half; the result has one row
per batch element (and, being a pure function of its arguments, is
identical across calls). -/
theorem claim_C8_positional_embedding (position : List ℝ) (dims : ℕ)
    (hd : 2 ∣ dims) (h4 : 4 ≤ dims) :
    ∃ E : List (List ℝ),
      positional_embedding position dims = Except.ok E ∧
      E.length = position.length ∧
      ∀ b, b < position.length →
        (E.getD b []).length = dims ∧
        ∀ j, j < dims / 2 →
          (E.getD b []).getD j 0 =
            Real.sin (position.getD b 0 *
              Real.exp ((j : ℝ) * (-(Real.log 10000 / (((dims / 2 : ℕ) : ℝ) - 1))))) ∧
          (E.getD b []).getD (dims / 2 + j) 0 =
            Real.cos (position.getD b 0 *
              Real.exp ((j : ℝ) * (-(Real.log 10000 / (((dims / 2 : ℕ) : ℝ) - 1))))) := by
  have hrate : posEmbRate dims =
      Except.ok (Real.log 10000 / (((dims / 2 : ℕ) : ℝ) - 1)) := by
    unfold posEmbRate
    rw [if_neg (by omega)]
  unfold positional_embedding
  rw [hrate, ebind_ok]
  dsimp only
  refine ⟨_, rfl, ?_, ?_⟩
  · rw [List.length_map]
  · intro b hb
    have hrow : (List.map (fun t =>
        (((List.range (dims / 2)).map (fun i : ℕ => Real.exp ((i : ℝ) * (-(Real.log 10000 / (((dims / 2 : ℕ) : ℝ) - 1)))))).map (fun f => Real.sin (t * f))) ++
        (((List.range (dims / 2)).map (fun i : ℕ => Real.exp ((i : ℝ) * (-(Real.log 10000 / (((dims / 2 : ℕ) : ℝ) - 1)))))).map (fun f => Real.cos (t * f)))) position).getD b [] =
        ((((List.range (dims / 2)).map (fun i : ℕ => Real.exp ((i : ℝ) * (-(Real.log 10000 / (((dims / 2 : ℕ) : ℝ) - 1)))))).map (fun f => Real.sin (position.getD b 0 * f))) ++
        (((List.range (dims / 2)).map (fun i : ℕ => Real.exp ((i : ℝ) * (-(Real.log 10000 / (((dims / 2 : ℕ) : ℝ) - 1)))))).map (fun f => Real.cos (position.getD b 0 * f)))) := by
      rw [List.getD_eq_getElem?_getD, List.getElem?_map, List.getElem?_eq_getElem hb,
        List.getD_eq_getElem?_getD, List.getElem?_eq_getElem hb]
      rfl
    rw [hrow]
    constructor
    · simp only [List.length_append, List.length_map, List.length_range]
      omega
    · intro j hj
      constructor
      · rw [List.getD_eq_getElem?_getD, List.getElem?_append_left
          (by rw [List.length_map, List.length_map, List.length_range]; exact hj)]
        rw [List.getElem?_map, List.getElem?_map, List.getElem?_range hj]
        rfl
      · rw [List.getD_eq_getElem?_getD, List.getElem?_append_right
          (by rw [List.length_map, List.length_map, List.length_range]; omega)]
        rw [List.length_map, List.length_map, List.length_range]
        rw [(show dims / 2 + j - dims / 2 = j by omega)]
        rw [List.getElem?_map, List.getElem?_map, List.getElem?_range hj]
        rfl

/-- Witness for C8 on the batch `[0]` with `dims = 4`. -/
theorem claim_C8_positional_embedding_witness :
    (2 ∣ 4) ∧ (4 : ℕ) ≤ 4 ∧
    ∃ E : List (List ℝ),
      positional_embedding [(0 : ℝ)] 4 = Except.ok E ∧
      E.length = [(0 : ℝ)].length ∧ (E.getD 0 []).length = 4 := by
  refine ⟨by decide, by decide, ?_⟩
  obtain ⟨E, hok, hlen, hrow⟩ :=
    claim_C8_positional_embedding [(0 : ℝ)] 4 (by decide) (by decide)
  exact ⟨E, hok, hlen, (hrow 0 (by norm_num)).1⟩

/-! ### Lemmas for the value semantics of `ConvReluBlock` -/

theorem conv3p1_zeroK {h w : ℕ} (x : Img h w) :
    conv3p1 (fun _ _ => 0) x = fun _ _ => 0 := by
  funext i j
  simp [conv3p1]

theorem conv3p0_zeroK33 (b : ℝ) (x : Img 3 3) :
    conv3p0 (fun _ _ => 0) b x = fun (_ : Fin 1) (_ : Fin 1) => b := by
  funext i j
  simp [conv3p0]

theorem gmean_const (h w : ℕ) (hh : (h : ℝ) ≠ 0) (hw : (w : ℝ) ≠ 0) (v : ℝ) :
    gmean (fun (_ : Fin h) (_ : Fin w) => v) = v := by
  unfold gmean
  simp only [Finset.sum_const, Finset.card_univ, Fintype.card_fin, smul_eq_mul]
  field_simp
  ring

theorem groupNorm1_const33 (γ β eps v : ℝ) :
    groupNorm1 γ β eps (fun (_ : Fin 3) (_ : Fin 3) => v) = fun _ _ => β := by
  funext i j
  unfold groupNorm1
  rw [gmean_const 3 3 (by norm_num) (by norm_num)]
  simp

theorem groupNorm1_const11 (γ β eps v : ℝ) :
    groupNorm1 γ β eps (fun (_ : Fin 1) (_ : Fin 1) => v) = fun _ _ => β := by
  funext i j
  unfold groupNorm1
  rw [gmean_const 1 1 (by norm_num) (by norm_num)]
  simp

theorem reluI_zero33 : reluI (fun (_ : Fin 3) (_ : Fin 3) => (0 : ℝ)) = fun _ _ => 0 := by
  funext i j
  simp [reluI]

/-! ### Claim C5: order of the residual addition -/

/-- Amended claim C5: in `ConvReluBlock` with `residual_connection`
enabled, the residual addition of the block's input is applied AFTER the
second normalization — the input is added to the output of the second
`GroupNorm` inside the final `F.relu` — and the block does apply group
normalization; no timestep embedding is consumed inside the block (the
forward map takes only the input and the learned parameters). -/
theorem claim_C5_residual_after_second_norm (K1 K2 : Fin 3 → Fin 3 → ℝ)
    (b2 γ β eps : ℝ) (x : Img 3 3) (i j : Fin 3) :
    ConvReluBlock.forwardVal K1 K2 b2 γ β eps x i j =
      max (x i j +
        groupNorm1 γ β eps
          ((conv3p0 K2 b2 (reluI (groupNorm1 γ β eps (conv3p1 K1 x)))) : Img 1 1)
          0 0) 0 := rfl

/-- Counterexample to C5 as stated: with zero kernels, `conv2` bias 5,
group-norm weight 1 and bias 0, on the all-ones 3×3 input the source block
returns 1 at every position (the residual input is added to the already
normalized — hence zero — `conv2` output), while the spec-described block,
which adds the residual before the second normalization, returns 0: the
residual addition is not applied before the second normalization. -/
theorem claim_C5_residual_order_counterexample :
    ConvReluBlock.forwardVal (fun _ _ => 0) (fun _ _ => 0) 5 1 0 (1 / 100000)
      (fun _ _ => 1) 0 0 ≠
    ConvReluBlock.forwardValSpec (fun _ _ => 0) (fun _ _ => 0) 5 1 0 (1 / 100000)
      (fun _ _ => 1) 0 0 := by
  have h1 : ConvReluBlock.forwardVal (fun _ _ => 0) (fun _ _ => 0) 5 1 0 (1 / 100000)
      (fun _ _ => 1) 0 0 = 1 := by
    simp only [ConvReluBlock.forwardVal]
    rw [conv3p1_zeroK, groupNorm1_const33, reluI_zero33, conv3p0_zeroK33,
      groupNorm1_const11]
    norm_num
  have h2 : ConvReluBlock.forwardValSpec (fun _ _ => 0) (fun _ _ => 0) 5 1 0 (1 / 100000)
      (fun _ _ => 1) 0 0 = 0 := by
    simp only [ConvReluBlock.forwardValSpec]
    rw [conv3p1_zeroK, groupNorm1_const33, reluI_zero33]
  rw [h1, h2]
  norm_num
